import Mathlib

/-!
Verification of the k6build build-orchestration service against its design
specification.  The repository sources under scrutiny are the build service
test (service_test.go) and the two CLI commands (cmd/server/server.go,
cmd/store/store.go).  The build service, catalog and cache implementations
are not part of the visible sources, so those parts are modelled from the
specification (sections 3, 4, 7 and 8) and checked against the behaviour the
test exercises.  Semantic versions are triples of naturals, constraint
expressions follow the grammar of section 4.1, and machine state (cache and
object store) is passed explicitly.
-/

/-- Semantic version, the v-prefixed dotted triple used by the catalog. -/
structure Version where
  major : Nat
  minor : Nat
  patch : Nat
deriving DecidableEq, Repr

/-- Strict ordering of semantic versions (lexicographic on the triple). -/
def verLt (a b : Version) : Bool :=
  decide (a.major < b.major ∨ (a.major = b.major ∧
    (a.minor < b.minor ∨ (a.minor = b.minor ∧ a.patch < b.patch))))

/-- Renders a version back to its source form, for artifact identifiers. -/
def verString (v : Version) : String :=
  "v" ++ Nat.repr v.major ++ "." ++ Nat.repr v.minor ++ "." ++ Nat.repr v.patch

/-- Comparison operator of a constraint expression. -/
inductive ConstraintOp
  | eq
  | gt
  | ge
  | lt
  | le
deriving DecidableEq, Repr

/-- A parsed constraint expression: an operator applied to a version. -/
structure Constraint where
  op : ConstraintOp
  ver : Version
deriving DecidableEq, Repr

/-- Numeric value of a decimal digit character. -/
def digitVal (c : Char) : Option Nat :=
  if c.isDigit then some (c.toNat - 48) else none

/-- Accumulating decimal parse of a digit sequence. -/
def parseDigitsAux (acc : Nat) : List Char → Option Nat
  | [] => some acc
  | c :: rest =>
    match digitVal c with
    | none => none
    | some d => parseDigitsAux (acc * 10 + d) rest

/-- Parses a nonempty decimal digit sequence. -/
def parseDigits (cs : List Char) : Option Nat :=
  match cs with
  | [] => none
  | _ => parseDigitsAux 0 cs

/-- Splits a character list on dots. -/
def splitDots : List Char → List (List Char)
  | [] => [[]]
  | c :: rest =>
    let r := splitDots rest
    if c = '.' then [] :: r
    else
      match r with
      | [] => [[c]]
      | h :: t => (c :: h) :: t

/-- Modelled from the spec: version tokens have the form vMAJOR.MINOR.PATCH
(section 8 scenarios); the concrete parser is not among the visible sources. -/
def parseVersionChars (cs : List Char) : Option Version :=
  match cs with
  | 'v' :: rest =>
    match splitDots rest with
    | [a, b, c] =>
      match parseDigits a, parseDigits b, parseDigits c with
      | some x, some y, some z => some ⟨x, y, z⟩
      | _, _, _ => none
    | _ => none
  | _ => none

/-- Modelled from the spec: constraint grammar of section 4.1, an exact
version token or a comparison operator prefixing a version token, with
exact-match the default when no operator is present; the concrete parser is
not among the visible sources. -/
def parseConstraint (cs : List Char) : Option Constraint :=
  match cs with
  | '>' :: '=' :: rest => (parseVersionChars rest).map (fun v => ⟨.ge, v⟩)
  | '<' :: '=' :: rest => (parseVersionChars rest).map (fun v => ⟨.le, v⟩)
  | '>' :: rest => (parseVersionChars rest).map (fun v => ⟨.gt, v⟩)
  | '<' :: rest => (parseVersionChars rest).map (fun v => ⟨.lt, v⟩)
  | _ => (parseVersionChars cs).map (fun v => ⟨.eq, v⟩)

/-- Whether a concrete version satisfies a parsed constraint. -/
def satisfies (v : Version) (c : Constraint) : Bool :=
  match c.op with
  | .eq => v == c.ver
  | .gt => verLt c.ver v
  | .ge => verLt c.ver v || v == c.ver
  | .lt => verLt v c.ver
  | .le => verLt v c.ver || v == c.ver

/-- The catalog, a list of known (dependency name, version) pairs. -/
abbrev Catalog := List (String × Version)

/-- The versions a catalog knows for a dependency name. -/
def catVersions (cat : Catalog) (name : String) : List Version :=
  (cat.filter (fun e => e.1 == name)).map (fun e => e.2)

/-- The larger of two versions. -/
def betterOf (a b : Version) : Version :=
  if verLt a b then b else a

/-- Highest version in a list, none when the list is empty. -/
def maxVersion : List Version → Option Version
  | [] => none
  | v :: rest =>
    match maxVersion rest with
    | none => some v
    | some w => some (betterOf v w)

/-- Failure modes of catalog resolution. -/
inductive ResolveError
  | cannotSatisfy
  | invalidConstraint
deriving DecidableEq, Repr

/-- Modelled from the spec: Catalog.Resolve of section 4.2, which returns a
concrete catalog version meeting the constraint or fails with
ErrCannotSatisfy when no known version does; the k6catalog implementation is
not among the visible sources.  Among the satisfying versions the highest is
chosen, matching the section 8 scenarios. -/
def Catalog.resolve (cat : Catalog) (name : String) (constraints : String) :
    Except ResolveError Version :=
  match parseConstraint constraints.data with
  | none => .error .invalidConstraint
  | some c =>
    match maxVersion ((catVersions cat name).filter (fun v => satisfies v c)) with
    | none => .error .cannotSatisfy
    | some v => .ok v

/-- A requested dependency: a named extension and a constraint expression. -/
structure Dependency where
  name : String
  constraints : String
deriving DecidableEq, Repr

/-- A dependency with the concrete version the catalog chose for it. -/
structure ResolvedDependency where
  name : String
  version : Version
deriving DecidableEq, Repr

/-- The build result descriptor of section 3. -/
structure Artifact where
  id : String
  checksum : String
  url : String
  dependencies : List ResolvedDependency
deriving DecidableEq, Repr

/-- Failure modes of a whole build request (section 7 taxonomy). -/
inductive BuildErr
  | cannotSatisfy (name : String)
  | invalidConstraint (name : String)
  | buildFailed (msg : String)
deriving DecidableEq, Repr

/-- Tags a resolution failure with the name of the failing dependency. -/
def resolveErrToBuildErr (name : String) : ResolveError → BuildErr
  | .cannotSatisfy => .cannotSatisfy name
  | .invalidConstraint => .invalidConstraint name

/-- Modelled from the spec: dependency resolution of section 4.1 step 2, in
the order supplied, aborting on the first unsatisfiable constraint; the
build service implementation is not among the visible sources. -/
def resolveDeps (cat : Catalog) : List Dependency →
    Except BuildErr (List (String × Version))
  | [] => .ok []
  | d :: rest =>
    match Catalog.resolve cat d.name d.constraints with
    | .error e => .error (resolveErrToBuildErr d.name e)
    | .ok v =>
      match resolveDeps cat rest with
      | .error e => .error e
      | .ok vs => .ok ((d.name, v) :: vs)

/-- Sort key of a resolved dependency: name, then version components,
compared lexicographically. -/
def depKey (d : String × Version) : String ×ₗ (Nat ×ₗ (Nat ×ₗ Nat)) :=
  toLex (d.1, toLex (d.2.major, toLex (d.2.minor, d.2.patch)))

/-- Total order on resolved dependencies used to canonicalise the
fingerprint input. -/
def depLe (a b : String × Version) : Prop :=
  depKey a ≤ depKey b

instance : DecidableRel depLe :=
  fun a b => inferInstanceAs (Decidable (depKey a ≤ depKey b))

instance : IsTotal (String × Version) depLe :=
  ⟨fun a b => le_total (depKey a) (depKey b)⟩

instance : IsTrans (String × Version) depLe :=
  ⟨fun _ _ _ hab hbc => le_trans hab hbc⟩

/-- The sort key determines the resolved dependency. -/
theorem depKey_inj {a b : String × Version} (h : depKey a = depKey b) : a = b := by
  obtain ⟨a1, am, ai, ap⟩ := a
  obtain ⟨b1, bm, bi, bp⟩ := b
  simp only [depKey, toLex_inj, Prod.mk.injEq] at h
  obtain ⟨h1, h2, h3, h4⟩ := h
  simp [h1, h2, h3, h4]

instance : IsAntisymm (String × Version) depLe :=
  ⟨fun _ _ hab hba => depKey_inj (le_antisymm hab hba)⟩

/-- Canonical sorted form of the resolved dependency set. -/
def sortDeps (l : List (String × Version)) : List (String × Version) :=
  l.insertionSort depLe

/-- The build fingerprint domain: platform, resolved core version and the
canonicalised resolved dependency set.  The collision-resistant hash of
section 3 is modelled as the identity on this data. -/
abbrev Fp := String × Version × List (String × Version)

/-- Modelled from the spec: the build fingerprint of section 3, a
deterministic function of the platform, the resolved core version and the
sorted resolved dependency versions; the hashing code is not among the
visible sources. -/
def fingerprint (platform : String) (coreVer : Version)
    (rdeps : List (String × Version)) : Fp :=
  (platform, coreVer, sortDeps rdeps)

/-- Printable identifier derived from a fingerprint, used as the stored
object identifier. -/
def fpId (fp : Fp) : String :=
  fp.1 ++ ":k6" ++ verString fp.2.1 ++
    (fp.2.2.foldl (fun acc d => acc ++ ":" ++ d.1 ++ verString d.2) "")

/-- Binary content produced by the builder. -/
abbrev Bytes := List Nat

/-- Modelled from the spec: the cryptographic digest of section 3, modelled
as an injective rendering of the content. -/
def checksum (content : Bytes) : String :=
  content.foldl (fun acc b => acc ++ Nat.repr b ++ ".") "sha256:"

/-- Base download URL of the object store used by the build service. -/
def storeBaseURL : String := "http://localhost:9000"

/-- Shared mutable state of the build service: the build cache mapping
fingerprints to artifacts, and the object store mapping identifiers to
content bytes. -/
structure BuildState where
  cache : List (Fp × Artifact)
  store : List (String × Bytes)
deriving DecidableEq, Repr

/-- The builder collaborator of section 4.3: from a platform and a resolved
module set it produces binary content or fails. -/
abbrev Builder := String → Version → List (String × Version) → Except String Bytes

/-- Catalog name under which the core is resolved. -/
def coreDep : String := "k6"

/-- Association list lookup with decidable key equality. -/
def alistGet {κ α : Type} [DecidableEq κ] : List (κ × α) → κ → Option α
  | [], _ => none
  | (k, v) :: rest, k0 => if k = k0 then some v else alistGet rest k0

/-- Modelled from the spec: the Build operation of section 4.1.  Resolves
the core and then each dependency in order, computes the fingerprint of the
resolved set, returns the cached artifact on a hit, and otherwise invokes
the builder, stores the content and records the new cache entry.  The
returned number counts builder invocations made by the call.  The service
implementation is not among the visible sources. -/
def buildSrvBuild (builder : Builder) (cat : Catalog) (st : BuildState)
    (platform : String) (k6Constrains : String) (deps : List Dependency) :
    Except BuildErr Artifact × BuildState × Nat :=
  match Catalog.resolve cat coreDep k6Constrains with
  | .error e => (.error (resolveErrToBuildErr coreDep e), st, 0)
  | .ok coreVer =>
    match resolveDeps cat deps with
    | .error e => (.error e, st, 0)
    | .ok rdeps =>
      let fp : Fp := fingerprint platform coreVer rdeps
      match alistGet st.cache fp with
      | some a => (.ok a, st, 0)
      | none =>
        match builder platform coreVer rdeps with
        | .error msg => (.error (.buildFailed msg), st, 1)
        | .ok content =>
          let id := fpId fp
          let a : Artifact :=
            ⟨id, checksum content, storeBaseURL ++ "/store/" ++ id ++ "/download",
              rdeps.map (fun p => ⟨p.1, p.2⟩)⟩
          (.ok a, ⟨(fp, a) :: st.cache, (id, content) :: st.store⟩, 1)

/-- Association list insert-or-update, mirroring assignment into a Go map. -/
def mapSet {κ α : Type} [DecidableEq κ] : List (κ × α) → κ → α → List (κ × α)
  | [], k, v => [(k, v)]
  | (k0, v0) :: rest, k, v =>
    if k0 = k then (k, v) :: rest else (k0, v0) :: mapSet rest k v

/-- Removes the first entry with the given key from an association list. -/
def alistRemove {κ α : Type} [DecidableEq κ] : List (κ × α) → κ → List (κ × α)
  | [], _ => []
  | (k, v) :: rest, k0 => if k = k0 then rest else (k, v) :: alistRemove rest k0

/-- Keys of an association list are pairwise distinct. -/
def keysNodup {κ α : Type} [DecidableEq κ] : List (κ × α) → Prop
  | [] => True
  | (k, _) :: rest => alistGet rest k = none ∧ keysNodup rest

/-- Number of occurrences of a fingerprint in an invocation log. -/
def countFp : List Fp → Fp → Nat
  | [], _ => 0
  | k :: rest, fp => (if k = fp then 1 else 0) + countFp rest fp

/-- State of the per-fingerprint build coordination of section 4.1: builds
in flight with their waiting callers, the build cache, the artifacts already
delivered to callers, and the log of builder invocations. -/
structure CoordState where
  inflight : List (Fp × List Nat)
  cache : List (Fp × Artifact)
  results : List (Nat × Fp × Artifact)
  invoked : List Fp

/-- Events of the interleaved execution: a caller requesting a fingerprint,
or an in-flight build completing with its artifact. -/
inductive CoordEvent
  | request (caller : Nat) (fp : Fp)
  | complete (fp : Fp) (a : Artifact)

/-- Modelled from the spec: the serialize-then-broadcast coordination of
section 4.1, one pending-build token per fingerprint with later arrivals
awaiting the in-flight result; the locking code is not among the visible
sources.  A request is served from the cache when possible, otherwise joins
the in-flight build for its fingerprint, otherwise starts a new builder
invocation; a completion delivers the artifact to every waiting caller and
records the cache entry. -/
def coordStep (s : CoordState) (e : CoordEvent) : CoordState :=
  match e with
  | .request c fp =>
    match alistGet s.cache fp with
    | some a => { s with results := (c, fp, a) :: s.results }
    | none =>
      match alistGet s.inflight fp with
      | some waiters => { s with inflight := mapSet s.inflight fp (c :: waiters) }
      | none =>
        { s with inflight := (fp, [c]) :: s.inflight, invoked := fp :: s.invoked }
  | .complete fp a =>
    match alistGet s.inflight fp with
    | none => s
    | some waiters =>
      { s with
        inflight := alistRemove s.inflight fp
        cache := (fp, a) :: s.cache
        results := waiters.map (fun c => (c, fp, a)) ++ s.results }

/-- Initial coordination state: nothing in flight, nothing cached. -/
def coordInit : CoordState := ⟨[], [], [], []⟩

/-- Coordination state after an interleaving of events. -/
def coordRun (evs : List CoordEvent) : CoordState :=
  evs.foldl coordStep coordInit

/-- Invariant tying invocations, in-flight builds, the cache and delivered
results together. -/
structure CoordInv (s : CoordState) : Prop where
  nodupInflight : keysNodup s.inflight
  countEq : ∀ fp, countFp s.invoked fp =
    if (alistGet s.inflight fp).isSome || (alistGet s.cache fp).isSome then 1 else 0
  disj : ∀ fp, (alistGet s.inflight fp).isSome = true → alistGet s.cache fp = none
  resultsCached : ∀ c fp a, (c, fp, a) ∈ s.results → alistGet s.cache fp = some a

/-- A fingerprint that has an in-flight build or a cache entry. -/
def reached (s : CoordState) (fp : Fp) : Prop :=
  (alistGet s.inflight fp).isSome = true ∨ (alistGet s.cache fp).isSome = true

/-- Result of a run of a CLI command: the error it returns (none meaning a
zero exit) and whether it reached the serving stage. -/
structure CliRunResult where
  err : Option String
  served : Bool
deriving DecidableEq, Repr

/-- The body of the build server command (cmd/server/server.go RunE) as a
function of the results of its fallible steps: log-level parsing and build
service construction are checked in this order and abort with an error
before serving; the error of the listener, once serving, is only logged and
the command returns nil. -/
def serverRunE (parseLogLevel : Except String Nat)
    (newBuildService : Except String Unit)
    (listenErr : Option String) : CliRunResult :=
  match parseLogLevel with
  | .error e => ⟨some ("parsing log level " ++ e), false⟩
  | .ok _ =>
    match newBuildService with
    | .error e => ⟨some ("creating local build service  " ++ e), false⟩
    | .ok _ =>
      match listenErr with
      | _ => ⟨none, true⟩

/-- What happens while the object store server is serving: either the
listener fails, or a termination signal arrives and graceful shutdown and
(if needed) forced close succeed or fail. -/
inductive StoreServeEvent
  | serverError (e : String)
  | signal (gracefulOk : Bool) (closeOk : Bool)

/-- The body of the object store server command (cmd/store/store.go RunE) as
a function of the results of its fallible steps: log-level parsing, file
store creation and store server creation abort with an error before serving;
a listener error is returned as a server error; on a signal the command
attempts graceful shutdown, falls back to a forced close, and returns an
error only when that forced close fails too. -/
def storeRunE (parseLogLevel : Except String Nat)
    (newFileStore : Except String Unit)
    (newStoreServer : Except String Unit)
    (ev : StoreServeEvent) : CliRunResult :=
  match parseLogLevel with
  | .error e => ⟨some ("parsing log level " ++ e), false⟩
  | .ok _ =>
    match newFileStore with
    | .error e => ⟨some ("creating object store " ++ e), false⟩
    | .ok _ =>
      match newStoreServer with
      | .error e => ⟨some ("creating store server " ++ e), false⟩
      | .ok _ =>
        match ev with
        | .serverError e => ⟨some ("server error: " ++ e), true⟩
        | .signal gracefulOk closeOk =>
          if gracefulOk then ⟨none, true⟩
          else if closeOk then ⟨none, true⟩
          else ⟨some "could not stop server", true⟩

/-- Shutdown steps the object store server command takes on a signal. -/
inductive ShutdownAction
  | gracefulShutdown (timeoutSeconds : Nat)
  | forceClose
deriving DecidableEq, Repr

/-- The shutdown sequence of cmd/store/store.go: graceful shutdown bounded
by the configured timeout, then a forced close only when graceful shutdown
failed. -/
def storeShutdownActions (timeoutSeconds : Nat) (gracefulOk : Bool) :
    List ShutdownAction :=
  if gracefulOk then [.gracefulShutdown timeoutSeconds]
  else [.gracefulShutdown timeoutSeconds, .forceClose]

/-- Default of the shutdown-timeout flag of the store command, in seconds. -/
def storeDefaultShutdownTimeoutSeconds : Nat := 10

/-- Default of the cache-url flag of the build server command. -/
def serverDefaultCacheURL : String := "http://localhost:9000"

/-- Default of the port flag of the object store server command. -/
def storeDefaultPort : Nat := 9000

/-- The CGO adjustment of cmd/server/server.go: when the enable-cgo flag is
false the build environment map is created if absent and CGO_ENABLED is set
to the string 0, overriding any user-supplied value; when the flag is true
the user-supplied environment is passed through unchanged. -/
def configureBuildEnv (enableCgo : Bool)
    (buildEnv : Option (List (String × String))) :
    Option (List (String × String)) :=
  if enableCgo then buildEnv
  else
    some (mapSet (match buildEnv with | none => [] | some m => m) "CGO_ENABLED" "0")

/-- Catalog of the repository test fixture (testdata/registry.json): core
versions v0.1.0 and v0.2.0, extension versions as served by the test go
proxy. -/
def testCatalog : Catalog :=
  [("k6", ⟨0, 1, 0⟩), ("k6", ⟨0, 2, 0⟩),
   ("k6/x/ext", ⟨0, 1, 0⟩), ("k6/x/ext", ⟨0, 2, 0⟩),
   ("k6/x/ext2", ⟨0, 1, 0⟩)]

/-- A builder that always succeeds with fixed content. -/
def okBuilder : Builder := fun _ _ _ => .ok [0]

/-- Empty build service state. -/
def st0 : BuildState := ⟨[], []⟩

/-- First build of the idempotence scenario. -/
def firstBuild : Except BuildErr Artifact × BuildState × Nat :=
  buildSrvBuild okBuilder testCatalog st0 "linux/amd64" "v0.1.0" []

/-- Artifact returned by the first build of the idempotence scenario. -/
def firstArtifact : Artifact :=
  match firstBuild.1 with
  | .ok a => a
  | .error _ => ⟨"", "", "", []⟩

/-- State left by the first build of the idempotence scenario. -/
def stAfterFirst : BuildState := firstBuild.2.1

/-- Fingerprint of the amd64 demonstration build. -/
def fpA : Fp := ("linux/amd64", ⟨0, 1, 0⟩, [])

/-- Fingerprint of the arm64 demonstration build. -/
def fpB : Fp := ("linux/arm64", ⟨0, 1, 0⟩, [])

/-- Demonstration artifact delivered by the coordinator. -/
def artA : Artifact := ⟨"idA", "csA", "urlA", []⟩

/-- Two concurrent requests for distinct fingerprints, neither completed:
both builds are in flight at once. -/
def demoTrace : List CoordEvent :=
  [.request 0 fpA, .request 1 fpB]

/-- A request, its completion, and a later request for the same fingerprint. -/
def w4trace : List CoordEvent :=
  [.request 0 fpA, .complete fpA artA, .request 1 fpA]

/-- Whether a fallible computation succeeded. -/
def isOkE {ε α : Type} : Except ε α → Bool
  | .ok _ => true
  | .error _ => false

theorem alistGet_mapSet_self {κ α : Type} [DecidableEq κ]
    (l : List (κ × α)) (k : κ) (v : α) : alistGet (mapSet l k v) k = some v := by
  induction l with
  | nil => simp [mapSet, alistGet]
  | cons h rest ih =>
    obtain ⟨k0, v0⟩ := h
    by_cases hk : k0 = k
    · simp [mapSet, hk, alistGet]
    · simp [mapSet, hk, alistGet, ih]

theorem alistGet_mapSet_ne {κ α : Type} [DecidableEq κ]
    {l : List (κ × α)} {k k2 : κ} {v : α} (h : k2 ≠ k) :
    alistGet (mapSet l k v) k2 = alistGet l k2 := by
  induction l with
  | nil => simp [mapSet, alistGet, if_neg (Ne.symm h)]
  | cons hd rest ih =>
    obtain ⟨k0, v0⟩ := hd
    by_cases hk : k0 = k
    · subst hk
      simp [mapSet, alistGet, if_neg (Ne.symm h)]
    · simp only [mapSet, if_neg hk, alistGet]
      by_cases hk2 : k0 = k2
      · simp [hk2]
      · simp [hk2, ih]

theorem keysNodup_mapSet {κ α : Type} [DecidableEq κ]
    {l : List (κ × α)} {k : κ} {v : α} (h : keysNodup l) :
    keysNodup (mapSet l k v) := by
  induction l with
  | nil => simp [mapSet, keysNodup, alistGet]
  | cons hd rest ih =>
    obtain ⟨k0, v0⟩ := hd
    obtain ⟨h1, h2⟩ := h
    by_cases hk : k0 = k
    · subst hk
      simpa [mapSet, keysNodup] using ⟨h1, h2⟩
    · simp only [mapSet, if_neg hk, keysNodup]
      exact ⟨by rw [alistGet_mapSet_ne hk]; exact h1, ih h2⟩

theorem alistGet_remove_ne {κ α : Type} [DecidableEq κ]
    {l : List (κ × α)} {k0 k2 : κ} (h : k2 ≠ k0) :
    alistGet (alistRemove l k0) k2 = alistGet l k2 := by
  induction l with
  | nil => rfl
  | cons hd rest ih =>
    obtain ⟨k, v⟩ := hd
    by_cases hk : k = k0
    · subst hk
      simp [alistRemove, alistGet, if_neg (Ne.symm h)]
    · simp only [alistRemove, if_neg hk, alistGet]
      by_cases hk2 : k = k2
      · simp [hk2]
      · simp [hk2, ih]

theorem alistGet_none_remove {κ α : Type} [DecidableEq κ]
    {l : List (κ × α)} {k0 k2 : κ} (h : alistGet l k2 = none) :
    alistGet (alistRemove l k0) k2 = none := by
  induction l with
  | nil => rfl
  | cons hd rest ih =>
    obtain ⟨k, v⟩ := hd
    simp only [alistGet] at h
    by_cases hk2 : k = k2
    · simp [hk2] at h
    · simp only [if_neg hk2] at h
      by_cases hk : k = k0
      · simpa [alistRemove, hk] using h
      · simpa [alistRemove, hk, alistGet, hk2] using ih h

theorem alistGet_remove_self {κ α : Type} [DecidableEq κ]
    {l : List (κ × α)} {k0 : κ} (h : keysNodup l) :
    alistGet (alistRemove l k0) k0 = none := by
  induction l with
  | nil => rfl
  | cons hd rest ih =>
    obtain ⟨k, v⟩ := hd
    obtain ⟨h1, h2⟩ := h
    by_cases hk : k = k0
    · subst hk
      simpa [alistRemove] using h1
    · simpa [alistRemove, hk, alistGet] using ih h2

theorem keysNodup_remove {κ α : Type} [DecidableEq κ]
    {l : List (κ × α)} {k0 : κ} (h : keysNodup l) :
    keysNodup (alistRemove l k0) := by
  induction l with
  | nil => trivial
  | cons hd rest ih =>
    obtain ⟨k, v⟩ := hd
    obtain ⟨h1, h2⟩ := h
    by_cases hk : k = k0
    · simpa [alistRemove, hk] using h2
    · simp only [alistRemove, if_neg hk, keysNodup]
      exact ⟨alistGet_none_remove h1, ih h2⟩

theorem maxVersion_mem {l : List Version} {v : Version}
    (h : maxVersion l = some v) : v ∈ l := by
  induction l with
  | nil => simp [maxVersion] at h
  | cons x xs ih =>
    simp only [maxVersion] at h
    cases hm : maxVersion xs with
    | none =>
      rw [hm] at h
      injection h with h
      subst h
      exact List.mem_cons_self _ _
    | some w =>
      rw [hm] at h
      injection h with h
      unfold betterOf at h
      by_cases hb : verLt x w = true
      · rw [if_pos hb] at h
        subst h
        exact List.mem_cons_of_mem _ (ih hm)
      · rw [if_neg hb] at h
        subst h
        exact List.mem_cons_self _ _

theorem maxVersion_none {l : List Version} (h : maxVersion l = none) : l = [] := by
  cases l with
  | nil => rfl
  | cons x xs =>
    simp only [maxVersion] at h
    cases hm : maxVersion xs <;> rw [hm] at h <;> cases h

theorem resolve_eq_of_parse {cat : Catalog} {name cons : String} {c : Constraint}
    (hp : parseConstraint cons.data = some c) :
    Catalog.resolve cat name cons =
      (match maxVersion ((catVersions cat name).filter (fun v => satisfies v c)) with
       | none => Except.error ResolveError.cannotSatisfy
       | some v => Except.ok v) := by
  unfold Catalog.resolve
  rw [hp]

theorem resolve_sound {cat : Catalog} {name cons : String} {c : Constraint}
    {v : Version} (hp : parseConstraint cons.data = some c)
    (hr : Catalog.resolve cat name cons = .ok v) :
    v ∈ catVersions cat name ∧ satisfies v c = true := by
  rw [resolve_eq_of_parse hp] at hr
  cases hm : maxVersion ((catVersions cat name).filter (fun w => satisfies w c)) with
  | none => rw [hm] at hr; simp at hr
  | some w =>
    rw [hm] at hr
    have hr2 : Except.ok (ε := ResolveError) w = Except.ok v := hr
    injection hr2 with hr2
    subst hr2
    have hmem := maxVersion_mem hm
    rw [List.mem_filter] at hmem
    exact hmem

theorem resolve_cannotSatisfy_iff {cat : Catalog} {name cons : String}
    {c : Constraint} (hp : parseConstraint cons.data = some c) :
    Catalog.resolve cat name cons = .error .cannotSatisfy ↔
      ∀ v ∈ catVersions cat name, satisfies v c = false := by
  rw [resolve_eq_of_parse hp]
  cases hm : maxVersion ((catVersions cat name).filter (fun w => satisfies w c)) with
  | none =>
    have hnil := maxVersion_none hm
    rw [List.filter_eq_nil_iff] at hnil
    constructor
    · intro _ v hv
      have := hnil v hv
      simpa using this
    · intro _
      rfl
  | some w =>
    have hmem := maxVersion_mem hm
    rw [List.mem_filter] at hmem
    constructor
    · intro h
      simp at h
    · intro h
      exfalso
      have hw := h w hmem.1
      rw [hmem.2] at hw
      exact Bool.noConfusion hw

theorem resolveDeps_ok_all {cat : Catalog} {deps : List Dependency}
    {rd : List (String × Version)} (h : resolveDeps cat deps = .ok rd) :
    ∀ d ∈ deps, ∃ v, Catalog.resolve cat d.name d.constraints = .ok v := by
  induction deps generalizing rd with
  | nil => intro d hd; cases hd
  | cons d0 rest ih =>
    intro d hd
    simp only [resolveDeps] at h
    cases hres : Catalog.resolve cat d0.name d0.constraints with
    | error e => rw [hres] at h; cases h
    | ok v =>
      rw [hres] at h
      cases hrest : resolveDeps cat rest with
      | error e => rw [hrest] at h; cases h
      | ok vs =>
        cases hd with
        | head => exact ⟨v, hres⟩
        | tail _ hmem => exact ih hrest d hmem

theorem resolveDeps_first_unsat {cat : Catalog} {deps1 deps2 : List Dependency}
    {d : Dependency}
    (h1 : ∀ d0 ∈ deps1, ∃ v, Catalog.resolve cat d0.name d0.constraints = .ok v)
    (h2 : Catalog.resolve cat d.name d.constraints = .error .cannotSatisfy) :
    resolveDeps cat (deps1 ++ d :: deps2) = .error (.cannotSatisfy d.name) := by
  induction deps1 with
  | nil =>
    simp only [List.nil_append, resolveDeps, h2]
    rfl
  | cons d0 rest ih =>
    obtain ⟨v0, hv0⟩ := h1 d0 (List.mem_cons_self _ _)
    have ihr := ih (fun dd hdd => h1 dd (List.mem_cons_of_mem _ hdd))
    simp only [List.cons_append, resolveDeps, hv0, List.append_eq, ihr]

theorem build_dep_error (builder : Builder) (cat : Catalog) (st : BuildState)
    (p cc : String) (deps : List Dependency) (cv : Version) (e : BuildErr)
    (hcv : Catalog.resolve cat coreDep cc = .ok cv)
    (hdeps : resolveDeps cat deps = .error e) :
    buildSrvBuild builder cat st p cc deps = (.error e, st, 0) := by
  simp only [buildSrvBuild, hcv, hdeps]

theorem build_error_state {builder : Builder} {cat : Catalog} {st : BuildState}
    {p cc : String} {deps : List Dependency} {e : BuildErr} {st1 : BuildState}
    {n : Nat} (h : buildSrvBuild builder cat st p cc deps = (.error e, st1, n)) :
    st1 = st := by
  simp only [buildSrvBuild] at h
  split at h
  · simp only [Prod.mk.injEq] at h
    exact h.2.1.symm
  · split at h
    · simp only [Prod.mk.injEq] at h
      exact h.2.1.symm
    · split at h
      · simp only [Prod.mk.injEq] at h
        exact Except.noConfusion h.1
      · split at h
        · simp only [Prod.mk.injEq] at h
          exact h.2.1.symm
        · simp only [Prod.mk.injEq] at h
          exact Except.noConfusion h.1

theorem sortDeps_perm {l1 l2 : List (String × Version)} (h : l1.Perm l2) :
    sortDeps l1 = sortDeps l2 :=
  List.eq_of_perm_of_sorted
    ((List.perm_insertionSort depLe l1).trans
      (h.trans (List.perm_insertionSort depLe l2).symm))
    (List.sorted_insertionSort depLe l1)
    (List.sorted_insertionSort depLe l2)

theorem fingerprint_perm (p : String) (cv : Version)
    {l1 l2 : List (String × Version)} (h : l1.Perm l2) :
    fingerprint p cv l1 = fingerprint p cv l2 := by
  unfold fingerprint
  rw [sortDeps_perm h]

theorem build_resolved_determined (builder : Builder) (cat : Catalog)
    (st : BuildState) (p c1 c2 : String) (d1 d2 : List Dependency)
    (hc : Catalog.resolve cat coreDep c1 = Catalog.resolve cat coreDep c2)
    (hd : resolveDeps cat d1 = resolveDeps cat d2) :
    buildSrvBuild builder cat st p c1 d1 = buildSrvBuild builder cat st p c2 d2 := by
  simp only [buildSrvBuild]
  rw [hc, hd]

theorem build_idempotent (builder : Builder) (cat : Catalog) (st : BuildState)
    (p c1 c2 : String) (d1 d2 : List Dependency) (a : Artifact)
    (st1 : BuildState) (n : Nat)
    (hc : Catalog.resolve cat coreDep c1 = Catalog.resolve cat coreDep c2)
    (hd : resolveDeps cat d1 = resolveDeps cat d2)
    (h : buildSrvBuild builder cat st p c1 d1 = (.ok a, st1, n)) :
    buildSrvBuild builder cat st1 p c2 d2 = (.ok a, st1, 0) := by
  cases hcore : Catalog.resolve cat coreDep c1 with
  | error e =>
    simp only [buildSrvBuild, hcore] at h
    simp at h
  | ok cv =>
    cases hdeps : resolveDeps cat d1 with
    | error e =>
      simp only [buildSrvBuild, hcore, hdeps] at h
      simp at h
    | ok rd =>
      cases hcache : alistGet st.cache (fingerprint p cv rd) with
      | some a0 =>
        simp only [buildSrvBuild, hcore, hdeps, hcache] at h
        simp only [Prod.mk.injEq, Except.ok.injEq] at h
        obtain ⟨ha, hst, hn⟩ := h
        subst ha
        subst hst
        simp [buildSrvBuild, ← hc, ← hd, hcore, hdeps, hcache]
      | none =>
        cases hb : builder p cv rd with
        | error msg =>
          simp only [buildSrvBuild, hcore, hdeps, hcache, hb] at h
          simp at h
        | ok content =>
          simp only [buildSrvBuild, hcore, hdeps, hcache, hb] at h
          simp only [Prod.mk.injEq, Except.ok.injEq] at h
          obtain ⟨ha, hst, hn⟩ := h
          subst ha
          subst hst
          simp [buildSrvBuild, ← hc, ← hd, hcore, hdeps, alistGet]

theorem coordInv_step (s : CoordState) (e : CoordEvent) (h : CoordInv s) :
    CoordInv (coordStep s e) := by
  obtain ⟨hnd, hcnt, hdisj, hres⟩ := h
  cases e with
  | request c fp =>
    cases hc : alistGet s.cache fp with
    | some a =>
      simp only [coordStep, hc]
      refine ⟨hnd, hcnt, hdisj, ?_⟩
      intro c0 fp0 a0 hmem
      rcases List.mem_cons.mp hmem with heq | hmem2
      · simp only [Prod.mk.injEq] at heq
        obtain ⟨rfl, rfl, rfl⟩ := heq
        exact hc
      · exact hres c0 fp0 a0 hmem2
    | none =>
      cases hin : alistGet s.inflight fp with
      | some w =>
        simp only [coordStep, hc, hin]
        refine ⟨keysNodup_mapSet hnd, ?_, ?_, hres⟩
        · intro fp0
          by_cases hfp : fp0 = fp
          · subst hfp
            rw [hcnt fp0, hin, alistGet_mapSet_self]
            rfl
          · rw [hcnt fp0, alistGet_mapSet_ne hfp]
        · intro fp0 h0
          by_cases hfp : fp0 = fp
          · subst hfp
            exact hdisj fp0 (by rw [hin]; rfl)
          · rw [alistGet_mapSet_ne hfp] at h0
            exact hdisj fp0 h0
      | none =>
        simp only [coordStep, hc, hin]
        refine ⟨⟨hin, hnd⟩, ?_, ?_, hres⟩
        · intro fp0
          by_cases hfp : fp = fp0
          · subst hfp
            simp [countFp, alistGet, hcnt fp, hin, hc]
          · simp [countFp, alistGet, hfp, hcnt fp0]
        · intro fp0 h0
          by_cases hfp : fp = fp0
          · subst hfp
            exact hc
          · simp only [alistGet, if_neg hfp] at h0
            exact hdisj fp0 h0
  | complete fp a =>
    cases hin : alistGet s.inflight fp with
    | none =>
      simp only [coordStep, hin]
      exact ⟨hnd, hcnt, hdisj, hres⟩
    | some w =>
      have hcafp : alistGet s.cache fp = none := hdisj fp (by rw [hin]; rfl)
      simp only [coordStep, hin]
      refine ⟨keysNodup_remove hnd, ?_, ?_, ?_⟩
      · intro fp0
        by_cases hfp : fp0 = fp
        · subst hfp
          rw [hcnt fp0, hin, alistGet_remove_self hnd]
          simp [alistGet]
        · rw [hcnt fp0, alistGet_remove_ne hfp]
          simp only [alistGet, if_neg (Ne.symm hfp)]
      · intro fp0 h0
        by_cases hfp : fp0 = fp
        · subst hfp
          rw [alistGet_remove_self hnd] at h0
          cases h0
        · rw [alistGet_remove_ne hfp] at h0
          have hnone := hdisj fp0 h0
          simp only [alistGet, if_neg (Ne.symm hfp)]
          exact hnone
      · intro c0 fp0 a0 hmem
        rcases List.mem_append.mp hmem with hmap | hold
        · obtain ⟨c1, hc1, heq⟩ := List.mem_map.mp hmap
          simp only [Prod.mk.injEq] at heq
          obtain ⟨rfl, rfl, rfl⟩ := heq
          simp [alistGet]
        · have hcached := hres c0 fp0 a0 hold
          have hfp : fp0 ≠ fp := by
            intro hh
            rw [hh, hcafp] at hcached
            cases hcached
          simp only [alistGet, if_neg (Ne.symm hfp)]
          exact hcached

theorem coordInv_foldl (evs : List CoordEvent) (s : CoordState) (h : CoordInv s) :
    CoordInv (evs.foldl coordStep s) := by
  induction evs generalizing s with
  | nil => exact h
  | cons e rest ih => exact ih _ (coordInv_step s e h)

theorem coordInv_init : CoordInv coordInit := by
  refine ⟨trivial, fun fp => rfl, fun fp h0 => ?_, fun c fp a h0 => ?_⟩
  · cases h0
  · cases h0

theorem coordInv_run (evs : List CoordEvent) : CoordInv (coordRun evs) :=
  coordInv_foldl evs coordInit coordInv_init

theorem reached_step (s : CoordState) (e : CoordEvent) (fp : Fp)
    (h : reached s fp) : reached (coordStep s e) fp := by
  cases e with
  | request c fp1 =>
    cases hc : alistGet s.cache fp1 with
    | some a =>
      simpa only [coordStep, hc] using h
    | none =>
      cases hin : alistGet s.inflight fp1 with
      | some w =>
        simp only [coordStep, hc, hin]
        rcases h with h | h
        · by_cases hfp : fp = fp1
          · subst hfp
            exact Or.inl (by rw [alistGet_mapSet_self]; rfl)
          · exact Or.inl (by rw [alistGet_mapSet_ne hfp]; exact h)
        · exact Or.inr h
      | none =>
        simp only [coordStep, hc, hin]
        rcases h with h | h
        · refine Or.inl ?_
          simp only [alistGet]
          by_cases hfp : fp1 = fp
          · simp [hfp]
          · simp only [if_neg hfp]
            exact h
        · exact Or.inr h
  | complete fp1 a =>
    cases hin : alistGet s.inflight fp1 with
    | none =>
      simpa only [coordStep, hin] using h
    | some w =>
      simp only [coordStep, hin]
      by_cases hfp : fp = fp1
      · subst hfp
        refine Or.inr ?_
        simp [alistGet]
      · rcases h with h | h
        · exact Or.inl (by rw [alistGet_remove_ne hfp]; exact h)
        · refine Or.inr ?_
          simp only [alistGet, if_neg (Ne.symm hfp)]
          exact h

theorem reached_after_request (s : CoordState) (c : Nat) (fp : Fp) :
    reached (coordStep s (.request c fp)) fp := by
  cases hc : alistGet s.cache fp with
  | some a =>
    simp only [coordStep, hc]
    exact Or.inr (by rw [hc]; rfl)
  | none =>
    cases hin : alistGet s.inflight fp with
    | some w =>
      simp only [coordStep, hc, hin]
      exact Or.inl (by rw [alistGet_mapSet_self]; rfl)
    | none =>
      simp only [coordStep, hc, hin]
      exact Or.inl (by simp [alistGet])

theorem reached_foldl (evs : List CoordEvent) (s : CoordState) (fp : Fp)
    (h : reached s fp) : reached (evs.foldl coordStep s) fp := by
  induction evs generalizing s with
  | nil => exact h
  | cons e rest ih => exact ih _ (reached_step s e fp h)

/-- Claim C1: catalog resolution returns a catalog version satisfying the
constraint, and fails with ErrCannotSatisfy exactly when no known version
satisfies it; a successful dependency resolution resolves every dependency
(no partial resolution), a single unsatisfiable dependency aborts the whole
Build with ErrCannotSatisfy naming it and leaves the state unchanged, and
the two unsatisfiable test scenarios (core constraint above v0.2.0, and
dependency constraint above ext v0.2.0) fail with ErrCannotSatisfy. -/
theorem resolve_cannotSatisfy_contract :
    (∀ (cat : Catalog) (name cons : String) (c : Constraint) (v : Version),
      parseConstraint cons.data = some c →
      Catalog.resolve cat name cons = .ok v →
      v ∈ catVersions cat name ∧ satisfies v c = true) ∧
    (∀ (cat : Catalog) (name cons : String) (c : Constraint),
      parseConstraint cons.data = some c →
      (Catalog.resolve cat name cons = .error .cannotSatisfy ↔
        ∀ v ∈ catVersions cat name, satisfies v c = false)) ∧
    (∀ (cat : Catalog) (deps : List Dependency) (rd : List (String × Version)),
      resolveDeps cat deps = .ok rd →
      ∀ d ∈ deps, ∃ v, Catalog.resolve cat d.name d.constraints = .ok v) ∧
    (∀ (builder : Builder) (cat : Catalog) (st : BuildState) (p cc : String)
      (deps1 deps2 : List Dependency) (d : Dependency) (cv : Version),
      Catalog.resolve cat coreDep cc = .ok cv →
      (∀ d0 ∈ deps1, ∃ v, Catalog.resolve cat d0.name d0.constraints = .ok v) →
      Catalog.resolve cat d.name d.constraints = .error .cannotSatisfy →
      buildSrvBuild builder cat st p cc (deps1 ++ d :: deps2) =
        (.error (.cannotSatisfy d.name), st, 0)) ∧
    buildSrvBuild okBuilder testCatalog st0 "linux/amd64" ">v0.2.0" [] =
      (.error (.cannotSatisfy coreDep), st0, 0) ∧
    buildSrvBuild okBuilder testCatalog st0 "linux/amd64" "v0.1.0"
        [⟨"k6/x/ext", ">v0.2.0"⟩] =
      (.error (.cannotSatisfy "k6/x/ext"), st0, 0) :=
  ⟨fun _ _ _ _ _ hp hr => resolve_sound hp hr,
   fun _ _ _ _ hp => resolve_cannotSatisfy_iff hp,
   fun _ _ _ h => resolveDeps_ok_all h,
   fun builder cat st p cc deps1 deps2 d cv hcv h1 h2 =>
     build_dep_error builder cat st p cc (deps1 ++ d :: deps2) cv _
       hcv (resolveDeps_first_unsat h1 h2),
   rfl, rfl⟩

/-- Witness for claim C1: the above-v0.1.0 constraint resolves in the test
catalog to v0.2.0, which is a catalog version satisfying the constraint. -/
theorem resolve_cannotSatisfy_contract_witness :
    (⟨0, 2, 0⟩ : Version) ∈ catVersions testCatalog "k6" ∧
      satisfies ⟨0, 2, 0⟩ ⟨.gt, ⟨0, 1, 0⟩⟩ = true :=
  resolve_cannotSatisfy_contract.1 testCatalog "k6" ">v0.1.0" ⟨.gt, ⟨0, 1, 0⟩⟩
    ⟨0, 2, 0⟩ rfl rfl

/-- Claim C2: against the test catalog with core versions v0.1.0 and v0.2.0,
the exact constraint v0.1.0 (exact-match, since no operator prefixes it)
resolves the core to v0.1.0 and Build succeeds; the above-v0.1.0 constraint
resolves to v0.2.0 and Build succeeds; and v0.1.0 together with the
extension dependency pinned at v0.1.0 succeeds as well. -/
theorem build_scenarios :
    parseConstraint "v0.1.0".data = some ⟨.eq, ⟨0, 1, 0⟩⟩ ∧
    Catalog.resolve testCatalog "k6" "v0.1.0" = .ok ⟨0, 1, 0⟩ ∧
    isOkE (buildSrvBuild okBuilder testCatalog st0 "linux/amd64" "v0.1.0" []).1
      = true ∧
    Catalog.resolve testCatalog "k6" ">v0.1.0" = .ok ⟨0, 2, 0⟩ ∧
    isOkE (buildSrvBuild okBuilder testCatalog st0 "linux/amd64" ">v0.1.0" []).1
      = true ∧
    isOkE (buildSrvBuild okBuilder testCatalog st0 "linux/amd64" "v0.1.0"
      [⟨"k6/x/ext", "v0.1.0"⟩]).1 = true :=
  ⟨rfl, rfl, rfl, rfl, rfl, rfl⟩

/-- Claim C3: Build is idempotent through the cache: when two successive
calls resolve to the same versions and the first one succeeds, the second is
a cache hit returning the first call's artifact unchanged, with the shared
state untouched and zero builder invocations. -/
theorem build_idempotent_cache_hit :
    ∀ (builder : Builder) (cat : Catalog) (st : BuildState) (p c1 c2 : String)
      (d1 d2 : List Dependency) (a : Artifact) (st1 : BuildState) (n : Nat),
      Catalog.resolve cat coreDep c1 = Catalog.resolve cat coreDep c2 →
      resolveDeps cat d1 = resolveDeps cat d2 →
      buildSrvBuild builder cat st p c1 d1 = (.ok a, st1, n) →
      buildSrvBuild builder cat st1 p c2 d2 = (.ok a, st1, 0) :=
  build_idempotent

/-- Witness for claim C3: replaying the concrete first build of the test
scenario hits the cache. -/
theorem build_idempotent_cache_hit_witness :
    buildSrvBuild okBuilder testCatalog stAfterFirst "linux/amd64" "v0.1.0" [] =
      (.ok firstArtifact, stAfterFirst, 0) :=
  build_idempotent_cache_hit okBuilder testCatalog st0 "linux/amd64" "v0.1.0"
    "v0.1.0" [] [] firstArtifact stAfterFirst 1 rfl rfl rfl

/-- Claim C4: in every interleaving of requests and completions, each
fingerprint sees at most one builder invocation (and holds at most one
in-flight entry), an interleaving containing a request for a fingerprint has
exactly one builder invocation for it, all callers for one fingerprint
receive the same artifact, and two requests for distinct fingerprints leave
both builds in flight at once, so distinct fingerprints are not serialized
against each other. -/
theorem coord_single_build :
    (∀ (evs : List CoordEvent) (fp : Fp),
      countFp (coordRun evs).invoked fp ≤ 1) ∧
    (∀ evs : List CoordEvent, keysNodup (coordRun evs).inflight) ∧
    (∀ (evs1 : List CoordEvent) (c : Nat) (fp : Fp) (evs2 : List CoordEvent),
      countFp (coordRun (evs1 ++ .request c fp :: evs2)).invoked fp = 1) ∧
    (∀ (evs : List CoordEvent) (c1 c2 : Nat) (fp : Fp) (a1 a2 : Artifact),
      (c1, fp, a1) ∈ (coordRun evs).results →
      (c2, fp, a2) ∈ (coordRun evs).results → a1 = a2) ∧
    (alistGet (coordRun demoTrace).inflight fpA).isSome = true ∧
    (alistGet (coordRun demoTrace).inflight fpB).isSome = true ∧
    fpA ≠ fpB := by
  refine ⟨?_, ?_, ?_, ?_, ?_, ?_, ?_⟩
  · intro evs fp
    rw [(coordInv_run evs).countEq fp]
    split <;> omega
  · exact fun evs => (coordInv_run evs).nodupInflight
  · intro evs1 c fp evs2
    have hstep : coordRun (evs1 ++ CoordEvent.request c fp :: evs2) =
        evs2.foldl coordStep (coordStep (coordRun evs1) (.request c fp)) := by
      simp [coordRun, List.foldl_append]
    rw [hstep]
    have hinv :
        CoordInv (evs2.foldl coordStep (coordStep (coordRun evs1) (.request c fp))) :=
      coordInv_foldl _ _ (coordInv_step _ _ (coordInv_run evs1))
    have hre :
        reached (evs2.foldl coordStep (coordStep (coordRun evs1) (.request c fp))) fp :=
      reached_foldl _ _ _ (reached_after_request (coordRun evs1) c fp)
    rw [hinv.countEq fp]
    rcases hre with h | h
    · simp [h]
    · simp [h]
  · intro evs c1 c2 fp a1 a2 h1 h2
    have e1 := (coordInv_run evs).resultsCached c1 fp a1 h1
    have e2 := (coordInv_run evs).resultsCached c2 fp a2 h2
    rw [e1] at e2
    exact Option.some.inj e2
  · decide
  · decide
  · decide

/-- Witness for claim C4: a request, its completion and a later request for
the same fingerprint yield exactly one invocation overall, and the delivered
artifacts in that trace agree. -/
theorem coord_single_build_witness :
    countFp (coordRun w4trace).invoked fpA = 1 ∧ artA = artA :=
  ⟨coord_single_build.2.2.1 [] 0 fpA
      [CoordEvent.complete fpA artA, CoordEvent.request 1 fpA],
   coord_single_build.2.2.2.1 w4trace 0 1 fpA artA artA (by decide) (by decide)⟩

/-- Claim C5: the fingerprint is invariant under reordering of the resolved
dependency set, and the whole Build outcome depends only on the resolution
results, never on the raw constraint strings: constraint sets that resolve
identically produce identical builds, hence identical fingerprints and cache
keys. -/
theorem fingerprint_deterministic :
    (∀ (p : String) (cv : Version) (l1 l2 : List (String × Version)),
      l1.Perm l2 → fingerprint p cv l1 = fingerprint p cv l2) ∧
    (∀ (builder : Builder) (cat : Catalog) (st : BuildState) (p c1 c2 : String)
      (d1 d2 : List Dependency),
      Catalog.resolve cat coreDep c1 = Catalog.resolve cat coreDep c2 →
      resolveDeps cat d1 = resolveDeps cat d2 →
      buildSrvBuild builder cat st p c1 d1 = buildSrvBuild builder cat st p c2 d2) :=
  ⟨fun p cv _ _ h => fingerprint_perm p cv h,
   fun builder cat st p c1 c2 d1 d2 hc hd =>
     build_resolved_determined builder cat st p c1 c2 d1 d2 hc hd⟩

/-- Witness for claim C5: swapping two resolved dependencies leaves the
fingerprint unchanged. -/
theorem fingerprint_deterministic_witness :
    fingerprint "linux/amd64" ⟨0, 1, 0⟩
        [("k6/x/ext", ⟨0, 1, 0⟩), ("k6/x/ext2", ⟨0, 2, 0⟩)] =
      fingerprint "linux/amd64" ⟨0, 1, 0⟩
        [("k6/x/ext2", ⟨0, 2, 0⟩), ("k6/x/ext", ⟨0, 1, 0⟩)] :=
  fingerprint_deterministic.1 "linux/amd64" ⟨0, 1, 0⟩ _ _ (by decide)

/-- Claim C6: a Build call that fails with a resolution error or a builder
error leaves the build cache and the object store exactly as they were: a
failed build creates no cache entry and stores no partial artifact. -/
theorem build_error_atomic :
    ∀ (builder : Builder) (cat : Catalog) (st : BuildState) (p cc : String)
      (deps : List Dependency) (e : BuildErr) (st1 : BuildState) (n : Nat),
      buildSrvBuild builder cat st p cc deps = (.error e, st1, n) →
      st1.cache = st.cache ∧ st1.store = st.store := by
  intro builder cat st p cc deps e st1 n h
  have hst := build_error_state h
  rw [hst]
  exact ⟨rfl, rfl⟩

/-- Witness for claim C6: the unsatisfiable core scenario leaves the empty
state untouched. -/
theorem build_error_atomic_witness :
    st0.cache = st0.cache ∧ st0.store = st0.store :=
  build_error_atomic okBuilder testCatalog st0 "linux/amd64" ">v0.2.0" []
    (.cannotSatisfy coreDep) st0 0 rfl

/-- Claim C7 counterexample: with configuration succeeding, a listener
failure in the build server command still makes its RunE return nil (exit
zero), refuting that a listener or startup error after configuration causes
a non-zero exit for both commands. -/
theorem cli_exit_counterexample :
    (serverRunE (.ok 0) (.ok ())
      (some "listen tcp 0.0.0.0:8000: address already in use")).err = none :=
  rfl

/-- Claim C7 (amended): both commands return a non-nil error on
configuration failure without ever beginning to serve; the store command
also returns a non-nil error when its listener fails; the build server
command, however, returns nil once configuration succeeded, even when its
listener fails. -/
theorem cli_exit_codes :
    (∀ (e : String) (svc : Except String Unit) (l : Option String),
      serverRunE (.error e) svc l = ⟨some ("parsing log level " ++ e), false⟩) ∧
    (∀ (ll : Nat) (e : String) (l : Option String),
      serverRunE (.ok ll) (.error e) l =
        ⟨some ("creating local build service  " ++ e), false⟩) ∧
    (∀ (ll : Nat) (l : Option String),
      serverRunE (.ok ll) (.ok ()) l = ⟨none, true⟩) ∧
    (∀ (e : String) (fs srv : Except String Unit) (ev : StoreServeEvent),
      storeRunE (.error e) fs srv ev = ⟨some ("parsing log level " ++ e), false⟩) ∧
    (∀ (ll : Nat) (e : String) (srv : Except String Unit) (ev : StoreServeEvent),
      storeRunE (.ok ll) (.error e) srv ev =
        ⟨some ("creating object store " ++ e), false⟩) ∧
    (∀ (ll : Nat) (e : String) (ev : StoreServeEvent),
      storeRunE (.ok ll) (.ok ()) (.error e) ev =
        ⟨some ("creating store server " ++ e), false⟩) ∧
    (∀ (ll : Nat) (e : String),
      storeRunE (.ok ll) (.ok ()) (.ok ()) (.serverError e) =
        ⟨some ("server error: " ++ e), true⟩) :=
  ⟨fun _ _ _ => rfl, fun _ _ _ => rfl, fun _ _ => rfl, fun _ _ _ _ => rfl,
   fun _ _ _ _ => rfl, fun _ _ _ => rfl, fun _ _ => rfl⟩

/-- Claim C8: on a termination signal the store command runs graceful
shutdown bounded by the configured timeout (default 10 seconds), forcibly
closes only when graceful shutdown fails, and returns an error exactly when
that forced close fails as well. -/
theorem store_graceful_shutdown :
    (∀ (ll : Nat) (gOk cOk : Bool),
      storeRunE (.ok ll) (.ok ()) (.ok ()) (.signal gOk cOk) =
        ⟨if gOk || cOk then none else some "could not stop server", true⟩) ∧
    (∀ t : Nat, storeShutdownActions t true = [.gracefulShutdown t]) ∧
    (∀ t : Nat, storeShutdownActions t false = [.gracefulShutdown t, .forceClose]) ∧
    storeDefaultShutdownTimeoutSeconds = 10 := by
  refine ⟨?_, fun t => rfl, fun t => rfl, rfl⟩
  intro ll gOk cOk
  cases gOk <;> cases cOk <;> rfl

/-- Claim C9: with the enable-cgo flag false the build environment always
maps CGO_ENABLED to the string 0, overriding any user-supplied value and
creating the map when none was given; with the flag true the user-supplied
environment passes through unchanged. -/
theorem cgo_env_override :
    (∀ env : Option (List (String × String)),
      alistGet ((configureBuildEnv false env).getD []) "CGO_ENABLED" = some "0") ∧
    configureBuildEnv false none = some [("CGO_ENABLED", "0")] ∧
    (∀ env : Option (List (String × String)), configureBuildEnv true env = env) := by
  refine ⟨?_, rfl, fun env => rfl⟩
  intro env
  cases env with
  | none => rfl
  | some m => exact alistGet_mapSet_self m "CGO_ENABLED" "0"

/-- Claim C10: the build server command's default cache URL is exactly
http://localhost:9000 and the object store server command's default port is
exactly 9000, so the defaults of the two commands point at each other on one
host. -/
theorem defaults_interoperate :
    serverDefaultCacheURL = "http://localhost:" ++ Nat.repr storeDefaultPort ∧
    serverDefaultCacheURL = "http://localhost:9000" ∧
    storeDefaultPort = 9000 :=
  ⟨rfl, rfl, rfl⟩
